import Mathlib

/-!
# Verification of the SEO log analyzer core

Shallow embedding of the repository's log parser (`src/parser.py`,
`ApacheLogParser`) and analytics engine (`src/analyzer.py`, `SEOLogAnalyzer`),
with theorems settling the frozen claims about them.

Modelling conventions:
* Python strings are Lean `String`/`List Char`; machine text is ASCII in the
  patterns and fixed tokens, so `Char.toLower` models `re.IGNORECASE` and the
  `str.lower` comparisons faithfully on the inputs the code distinguishes.
* Fallible Python code is `Option`; an uncaught Python exception is modelled
  by `Except.error` with the exception message.
* Pandas DataFrames are lists of records; a DataFrame column is a record
  field or a derived function of a record.  `groupby` (default `sort=True`)
  enumerates groups in ascending key order and drops null keys, exactly as
  pandas does.  `sort_values` is modelled as a stable sort, matching the
  deterministic behaviour observed on the small aggregated frames the
  analyzer sorts.
* Python `float` arithmetic is modelled by exact rationals (`Rat`); builtin
  `round(x, 2)` is round-half-to-even at two decimals (`round2`).
-/

/-! ## Case-insensitive substring search

Every pattern in `BOT_PATTERNS` is a literal (no regex metacharacters), so
`re.search(pattern, ua, re.IGNORECASE)` is exactly a case-insensitive
substring test.  We lowercase both sides and test list containment. -/

/-- The characters of a string, lowercased (ASCII, as `Char.toLower`). -/
def lc (s : String) : List Char := s.data.map Char.toLower

/-- `hasPref p l`: `p` is an initial segment of `l`. -/
def hasPref : List Char → List Char → Bool
  | [], _ => true
  | _ :: _, [] => false
  | a :: as, b :: bs => a == b && hasPref as bs

/-- `hasSub p l`: `p` occurs contiguously somewhere inside `l`. -/
def hasSub (p : List Char) : List Char → Bool
  | [] => hasPref p []
  | b :: bs => hasPref p (b :: bs) || hasSub p bs

/-- `re.search(pat, ua, re.IGNORECASE)` for a literal pattern `pat`. -/
def matchesCI (pat ua : String) : Bool := hasSub (lc pat) (lc ua)

/-! ## The bot pattern table (`ApacheLogParser.BOT_PATTERNS`)

A Python 3.7+ dict iterates in insertion order, so the table is an ordered
association list, in the declaration order of `parser.py` lines 31-45. -/

/-- `ApacheLogParser.BOT_PATTERNS`, in declaration order. -/
def BOT_PATTERNS : List (String × String) :=
  [ ("googlebot", "Googlebot"),
    ("googlebot_mobile", "Googlebot-Mobile"),
    ("bingbot", "bingbot"),
    ("yandex", "YandexBot"),
    ("baidu", "Baiduspider"),
    ("duckduckgo", "DuckDuckBot"),
    ("semrush", "SemrushBot"),
    ("ahrefs", "AhrefsBot"),
    ("screaming_frog", "Screaming Frog"),
    ("mj12bot", "MJ12bot"),
    ("dotbot", "DotBot"),
    ("ahrefsbot", "AhrefsBot"),
    ("semrushbot", "SemrushBot") ]

/-- The scan loop of `ApacheLogParser._identify_bot`, over any table. -/
def identify_botAux (ua : String) : List (String × String) → Option String
  | [] => none
  | (name, pat) :: rest =>
    if matchesCI pat ua then some name else identify_botAux ua rest

/-- `ApacheLogParser._identify_bot`: first matching pattern wins, `None`
when no pattern matches. -/
def identify_bot (ua : String) : Option String := identify_botAux ua BOT_PATTERNS

/-! ### Lemmas about first-match scanning -/

theorem hasPref_trans : ∀ p q r, hasPref p q = true → hasPref q r = true →
    hasPref p r = true
  | [], _, _, _, _ => rfl
  | _ :: _, [], _, h, _ => by simp [hasPref] at h
  | _ :: _, _ :: _, [], _, h => by simp [hasPref] at h
  | a :: as, b :: bs, c :: cs, h1, h2 => by
    simp only [hasPref, Bool.and_eq_true, beq_iff_eq] at h1 h2 ⊢
    exact ⟨h1.1.trans h2.1, hasPref_trans as bs cs h1.2 h2.2⟩

theorem hasSub_of_pref : ∀ p q r, hasPref p q = true → hasSub q r = true →
    hasSub p r = true
  | p, q, [], hpq, hqr => by
    simpa [hasSub] using hasPref_trans p q [] hpq (by simpa [hasSub] using hqr)
  | p, q, c :: cs, hpq, hqr => by
    simp only [hasSub, Bool.or_eq_true] at hqr ⊢
    rcases hqr with h | h
    · exact Or.inl (hasPref_trans p q (c :: cs) hpq h)
    · exact Or.inr (hasSub_of_pref p q cs hpq h)

theorem identify_botAux_first (ua : String) :
    ∀ (l : List (String × String)) (i : Nat) (hi : i < l.length),
      matchesCI (l.get ⟨i, hi⟩).2 ua = true →
      (∀ j (hj : j < i), matchesCI (l.get ⟨j, hj.trans hi⟩).2 ua = false) →
      identify_botAux ua l = some (l.get ⟨i, hi⟩).1
  | [], i, hi, _, _ => absurd hi (Nat.not_lt_zero i)
  | (name, pat) :: rest, 0, _, hm, _ => by
    simp only [List.get] at hm ⊢
    simp [identify_botAux, hm]
  | (name, pat) :: rest, i + 1, hi, hm, hnone => by
    have h0 : matchesCI pat ua = false := hnone 0 (Nat.succ_pos i)
    simp only [identify_botAux, h0, Bool.false_eq_true, if_false]
    exact identify_botAux_first ua rest i (Nat.lt_of_succ_lt_succ hi) hm
      (fun j hj => hnone (j + 1) (Nat.succ_lt_succ hj))

theorem identify_botAux_none (ua : String) :
    ∀ (l : List (String × String)),
      (∀ i (hi : i < l.length), matchesCI (l.get ⟨i, hi⟩).2 ua = false) →
      identify_botAux ua l = none
  | [], _ => rfl
  | (name, pat) :: rest, h => by
    have h0 : matchesCI pat ua = false := h 0 (Nat.succ_pos _)
    simp only [identify_botAux, h0, Bool.false_eq_true, if_false]
    exact identify_botAux_none ua rest
      (fun i hi => h (i + 1) (Nat.succ_lt_succ hi))

/-! ## The line matcher (`ApacheLogParser.LOG_PATTERN`, `re.match`)

The regex's character classes each exclude the literal that follows them, so
greedy matching never backtracks across a class/literal boundary; a
deterministic maximal-munch scanner over `List Char` is therefore an exact
embedding of `LOG_PATTERN.match`.  `re.match` anchors at the start only:
trailing text after the closing quote is ignored. -/

/-- Python's `\s` / `str.split()` / `str.strip()` whitespace set. -/
def isPyWs (c : Char) : Bool :=
  c == ' ' || c == '\t' || c == '\n' || c == '\r' || c == '\x0b' || c == '\x0c'

/-- One-or-more characters satisfying `p` (a greedy `[...]+`). -/
def takeWhile1 (p : Char → Bool) (l : List Char) : Option (List Char × List Char) :=
  match l.takeWhile p with
  | [] => none
  | t => some (t, l.drop t.length)

/-- Consume an exact literal. -/
def expectStr : List Char → List Char → Option (List Char)
  | [], r => some r
  | _ :: _, [] => none
  | a :: as, b :: bs => if a == b then expectStr as bs else none

/-- Consume one exact character. -/
def expectChar (c : Char) (l : List Char) : Option (List Char) := expectStr [c] l

/-- The bytes field, `\d+|-` (digits preferred, else a literal dash). -/
def readBytesField (l : List Char) : Option (List Char × List Char) :=
  match takeWhile1 Char.isDigit l with
  | some res => some res
  | none =>
    match l with
    | '-' :: r => some (['-'], r)
    | _ => none

/-- The named groups captured by `LOG_PATTERN`. -/
structure RawMatch where
  ip : List Char
  ts : List Char
  method : List Char
  path : List Char
  statusDigits : List Char
  bytesField : List Char
  referer : List Char
  user_agent : List Char
deriving DecidableEq, Repr

/-- `LOG_PATTERN` up to the timestamp: `[\d.]+ - - \[[^\]]+\] "`. -/
def matchHead (l : List Char) : Option (List Char × List Char × List Char) := do
  let (ip, r) ← takeWhile1 (fun c => c.isDigit || c == '.') l
  let r ← expectStr " - - [".data r
  let (ts, r) ← takeWhile1 (fun c => c != ']') r
  let r ← expectStr "] \"".data r
  return (ip, ts, r)

/-- The request line: `\w+ [^\s]+ HTTP/[\d.]+" `. -/
def matchReq (l : List Char) : Option (List Char × List Char × List Char) := do
  let (mth, r) ← takeWhile1 (fun c => c.isAlphanum || c == '_') l
  let r ← expectChar ' ' r
  let (pth, r) ← takeWhile1 (fun c => !(isPyWs c)) r
  let r ← expectStr " HTTP/".data r
  let (_v, r) ← takeWhile1 (fun c => c.isDigit || c == '.') r
  let r ← expectStr "\" ".data r
  return (mth, pth, r)

/-- Status and bytes: `\d+ (\d+|-) "`. -/
def matchCounts (l : List Char) : Option (List Char × List Char × List Char) := do
  let (st, r) ← takeWhile1 Char.isDigit l
  let r ← expectChar ' ' r
  let (bf, r) ← readBytesField r
  let r ← expectStr " \"".data r
  return (st, bf, r)

/-- Referer and user agent: `[^"]*" "[^"]*"`. -/
def matchTail (l : List Char) : Option (List Char × List Char) := do
  let rf := l.takeWhile (fun c => c != '"')
  let r ← expectStr "\" \"".data (l.drop rf.length)
  let ua := r.takeWhile (fun c => c != '"')
  let _ ← expectChar '"' (r.drop ua.length)
  return (rf, ua)

/-- `LOG_PATTERN.match(line)`; `\w` and `\s` restricted to ASCII (log lines
contain no non-ASCII word/space characters the claims distinguish). -/
def matchLog (l : List Char) : Option RawMatch := do
  let (ip, ts, r) ← matchHead l
  let (mth, pth, r) ← matchReq r
  let (st, bf, r) ← matchCounts r
  let (rf, ua) ← matchTail r
  return ⟨ip, ts, mth, pth, st, bf, rf, ua⟩

/-! ## Timestamp parsing (`datetime.strptime`)

`parse_line` tries `'%d/%b/%Y:%H:%M:%S %z'`, and on `ValueError` retries
`timestamp.split()[0]` with `'%d/%b/%Y:%H:%M:%S'`.  CPython's `_strptime`
compiles each directive to a regex (`%d` one or two digits valued 1-31,
`%b` a case-insensitive three-letter month name, `%Y` exactly four digits,
`%H`/`%M`/`%S` one or two digits bounded 23/59/61, `%z` `±HHMM`/`±HH:MM`
with optional seconds or `Z`), requires the whole string to be consumed, and
`datetime(...)` then rejects calendar-invalid days, seconds ≥ 60 and UTC
offsets of 24 h or more — each rejection a `ValueError`.  All directives
here are followed by non-digit separators, so two-digits-else-one maximal
munch coincides with CPython's alternation.  Offsets are kept in whole
minutes (sub-minute offset seconds are not distinguished by any claim). -/

/-- A parsed `datetime`; `tz` is the UTC offset in minutes (`none` = naive). -/
structure Timestamp where
  year : Int
  month : Nat
  day : Nat
  hour : Nat
  minute : Nat
  second : Nat
  tz : Option Int
deriving DecidableEq, Repr

def digToNat (c : Char) : Nat := c.toNat - '0'.toNat

/-- A one- or two-digit numeric directive (maximal munch). -/
def read2or1 : List Char → Option (Nat × List Char)
  | a :: b :: r =>
    if a.isDigit then
      if b.isDigit then some (10 * digToNat a + digToNat b, r)
      else some (digToNat a, b :: r)
    else none
  | [a] => if a.isDigit then some (digToNat a, []) else none
  | [] => none

/-- `%Y`: exactly four digits. -/
def read4 : List Char → Option (Int × List Char)
  | a :: b :: c :: d :: r =>
    if a.isDigit && b.isDigit && c.isDigit && d.isDigit then
      some (((1000 * digToNat a + 100 * digToNat b + 10 * digToNat c
        + digToNat d : Nat) : Int), r)
    else none
  | _ => none

/-- `%b`: a three-letter month abbreviation, case-insensitively. -/
def monthOf (a b c : Char) : Option Nat :=
  let s : List Char := [a.toLower, b.toLower, c.toLower]
  if s = "jan".data then some 1 else if s = "feb".data then some 2
  else if s = "mar".data then some 3 else if s = "apr".data then some 4
  else if s = "may".data then some 5 else if s = "jun".data then some 6
  else if s = "jul".data then some 7 else if s = "aug".data then some 8
  else if s = "sep".data then some 9 else if s = "oct".data then some 10
  else if s = "nov".data then some 11 else if s = "dec".data then some 12
  else none

/-- `%d/%b/%Y` (day 1-31, three-letter month, four-digit year). -/
def readDate (l : List Char) : Option ((Nat × Nat × Int) × List Char) := do
  let (d, r) ← read2or1 l
  guard (1 ≤ d ∧ d ≤ 31)
  let r ← expectChar '/' r
  match r with
  | a :: b :: c :: r => do
    let mo ← monthOf a b c
    let r ← expectChar '/' r
    let (y, r) ← read4 r
    return ((d, mo, y), r)
  | _ => none

/-- `:%H:%M:%S` with the bounds of the strptime directives. -/
def readClock (l : List Char) : Option ((Nat × Nat × Nat) × List Char) := do
  let r ← expectChar ':' l
  let (hh, r) ← read2or1 r
  guard (hh ≤ 23)
  let r ← expectChar ':' r
  let (mi, r) ← read2or1 r
  guard (mi ≤ 59)
  let r ← expectChar ':' r
  let (ss, r) ← read2or1 r
  guard (ss ≤ 61)
  return ((hh, mi, ss), r)

/-- The shared `'%d/%b/%Y:%H:%M:%S'` prefix of both timestamp formats. -/
def readFields (l : List Char) :
    Option ((Nat × Nat × Int × Nat × Nat × Nat) × List Char) := do
  let (dmy, r) ← readDate l
  let (hms, r) ← readClock r
  return ((dmy.1, dmy.2.1, dmy.2.2, hms.1, hms.2.1, hms.2.2), r)

/-- `%z`: `Z`, or a sign, two hour digits, optional colon, two minute
digits, and an optional seconds group.  Offset in minutes. -/
def readTz (l : List Char) : Option (Int × List Char) :=
  match l with
  | 'Z' :: r => some (0, r)
  | s :: a :: b :: r =>
    if (s == '+' || s == '-') && a.isDigit && b.isDigit then
      let hh := 10 * digToNat a + digToNat b
      let r := match r with
        | ':' :: r' => r'
        | _ => r
      match r with
      | c :: d :: r =>
        if c.isDigit && d.isDigit then
          let mm := 10 * digToNat c + digToNat d
          let r := match r with
            | ':' :: e :: f :: r' =>
              if e.isDigit && f.isDigit then r' else ':' :: e :: f :: r'
            | e :: f :: r' =>
              if e.isDigit && f.isDigit then r' else e :: f :: r'
            | r' => r'
          let off : Int := (if s == '-' then -1 else 1) * ((hh : Int) * 60 + mm)
          some (off, r)
        else none
      | _ => none
    else none
  | _ => none

def isLeap (y : Int) : Bool := y % 4 == 0 && (y % 100 != 0 || y % 400 == 0)

def daysInMonth (y : Int) (m : Nat) : Nat :=
  if m = 2 then (if isLeap y then 29 else 28)
  else if m = 4 ∨ m = 6 ∨ m = 9 ∨ m = 11 then 30
  else 31

/-- The `datetime(...)` constructor's validation of the matched fields. -/
def mkValid (f : Nat × Nat × Int × Nat × Nat × Nat) (tz : Option Int) :
    Option Timestamp :=
  match f with
  | (d, mo, y, hh, mi, ss) =>
    if d ≤ daysInMonth y mo ∧ ss ≤ 59 ∧ (tz.getD 0).natAbs < 1440 then
      some ⟨y, mo, d, hh, mi, ss, tz⟩
    else none

/-- `datetime.strptime(ts, '%d/%b/%Y:%H:%M:%S %z')` as an `Option`. -/
def parseTsZ (ts : List Char) : Option Timestamp := do
  let (f, r) ← readFields ts
  let r ← expectChar ' ' r
  let (off, r) ← readTz r
  guard r.isEmpty
  mkValid f (some off)

/-- `datetime.strptime(tok, '%d/%b/%Y:%H:%M:%S')` as an `Option`. -/
def parseTsNoZ (tok : List Char) : Option Timestamp := do
  let (f, r) ← readFields tok
  guard r.isEmpty
  mkValid f none

/-- `s.split()[0]` as an `Option`: `none` models the uncaught `IndexError`
when `s` is empty or all whitespace. -/
def firstTok (l : List Char) : Option (List Char) :=
  match l.dropWhile isPyWs with
  | [] => none
  | c :: cs => some ((c :: cs).takeWhile (fun x => !(isPyWs x)))

/-! ## Records and `parse_line` -/

/-- One parsed log line (the dict `ApacheLogParser.parse_line` builds).
`bot_type`/`is_bot` are set from `_identify_bot` exactly as in the source. -/
structure Record where
  ip : String
  timestamp : Timestamp
  method : String
  path : String
  status : Nat
  bytes : Nat
  referer : String
  user_agent : String
  bot_type : Option String
  is_bot : Bool
deriving DecidableEq, Repr

/-- `int` of a digit string. -/
def natOfDigits (l : List Char) : Nat := l.foldl (fun a c => 10 * a + digToNat c) 0

/-- The dict built after a successful match and timestamp conversion. -/
def mkRecord (m : RawMatch) (t : Timestamp) : Record :=
  let ua : String := ⟨m.user_agent⟩
  let bt := identify_bot ua
  { ip := ⟨m.ip⟩, timestamp := t, method := ⟨m.method⟩, path := ⟨m.path⟩,
    status := natOfDigits m.statusDigits,
    bytes := if m.bytesField = ['-'] then 0 else natOfDigits m.bytesField,
    referer := ⟨m.referer⟩, user_agent := ua,
    bot_type := bt, is_bot := bt.isSome }

/-- `ApacheLogParser.parse_line`.  `Except.ok none` models returning `None`;
`Except.error` models the uncaught `IndexError` raised when the primary
format fails and the timestamp field is empty-after-split (the
`data['timestamp'].split()[0]` on line 78 of `parser.py`, guarded only by
`except ValueError`). -/
def parse_line (line : String) : Except String (Option Record) :=
  match matchLog line.data with
  | none => .ok none
  | some m =>
    match parseTsZ m.ts with
    | some t => .ok (some (mkRecord m t))
    | none =>
      match firstTok m.ts with
      | none => .error "IndexError: list index out of range"
      | some tok =>
        match parseTsNoZ tok with
        | some t => .ok (some (mkRecord m t))
        | none => .ok none

/-! ## Batch parsing (`ApacheLogParser.parse_file`)

The file handle is an input adapter; the loop body is modelled over the list
of the file's lines.  The loop condition is Python's
`if limit and i >= limit: break` — under Python truthiness a `limit` of
`None` **or `0`** never breaks.  The returned pair carries the parsed
records and the number of lines examined (`parse_line` calls made); a raised
exception aborts the loop, counting the raising line as examined.  The
DataFrame's derived columns (`date`, `hour`, `is_html`, `file_extension`)
are modelled as the derived functions below. -/

/-- `line.strip()`. -/
def stripWs (s : String) : String :=
  ⟨((s.data.dropWhile isPyWs).reverse.dropWhile isPyWs).reverse⟩

/-- The truthiness test `limit and i >= limit`. -/
def limitHit (limit : Option Nat) (i : Nat) : Bool :=
  match limit with
  | some l => decide (l ≠ 0) && decide (l ≤ i)
  | none => false

/-- The loop of `parse_file`, from line index `i`. -/
def parse_fileGo : List String → Nat → Option Nat →
    Except String (List Record) × Nat
  | [], _, _ => (.ok [], 0)
  | line :: rest, i, limit =>
    if limitHit limit i then (.ok [], 0)
    else
      match parse_line (stripWs line) with
      | .error e => (.error e, 1)
      | .ok opt =>
        let (res, n) := parse_fileGo rest (i + 1) limit
        (res.map (fun rs =>
          match opt with
          | some r => r :: rs
          | none => rs), n + 1)

/-- `ApacheLogParser.parse_file` on the file's lines. -/
def parse_file (lines : List String) (limit : Option Nat) :
    Except String (List Record) :=
  (parse_fileGo lines 0 limit).1

/-- How many lines `parse_file` examines (reads and hands to `parse_line`). -/
def linesExamined (lines : List String) (limit : Option Nat) : Nat :=
  (parse_fileGo lines 0 limit).2

/-- Derived column `date` (the calendar date of the timestamp). -/
def rec_date (r : Record) : Int × Nat × Nat :=
  (r.timestamp.year, r.timestamp.month, r.timestamp.day)

/-- Derived column `hour`. -/
def rec_hour (r : Record) : Nat := r.timestamp.hour

/-- Derived column `is_html`: `path.str.endswith(('.html', '.htm', '/'))`. -/
def rec_is_html (r : Record) : Bool :=
  r.path.endsWith ".html" || r.path.endsWith ".htm" || r.path.endsWith "/"

/-- Derived column `file_extension`: `path.str.extract(r'\.([a-z0-9]+)$')`. -/
def rec_file_extension (r : Record) : Option String :=
  let rev := r.path.data.reverse
  let ext := rev.takeWhile (fun c => c.isLower || c.isDigit)
  match rev.drop ext.length with
  | '.' :: _ => if ext.isEmpty then none else some ⟨ext.reverse⟩
  | _ => none

/-! ## Grouping and sorting primitives

`groupby(key)` with the default `sort=True` enumerates groups by ascending
key and drops null keys; `sort_values(col, ascending=False)` is modelled as
a stable descending sort (the behaviour pandas exhibits on the analyzer's
aggregated frames); `value_counts()` lists distinct values by descending
count, ties in first-encounter order. -/

/-- Strict comparison of characters by code point. -/
def chLt (a b : Char) : Bool := decide (a.toNat < b.toNat)

/-- Lexicographic comparison of character lists by code point — the order
Python (and hence pandas) uses on strings. -/
def listLt : List Char → List Char → Bool
  | [], [] => false
  | [], _ :: _ => true
  | _ :: _, [] => false
  | a :: as, b :: bs => if a = b then listLt as bs else chLt a b

/-- Lexicographic string comparison. -/
def strLt (a b : String) : Bool := listLt a.data b.data

/-- Strict comparison of `Nat` keys (status-code columns). -/
def natLt (a b : Nat) : Bool := decide (a < b)

/-- Insert into an ascending (by `lt`) sorted list of distinct keys. -/
def sIns [DecidableEq β] (lt : β → β → Bool) (k : β) : List β → List β
  | [] => [k]
  | x :: xs =>
    if lt k x then k :: x :: xs
    else if k = x then x :: xs
    else x :: sIns lt k xs

/-- The ascending list of distinct keys of `l` (the groupby group order). -/
def sKeys [DecidableEq β] (lt : β → β → Bool) (l : List β) : List β :=
  l.foldr (sIns lt) []

/-- The loop of `firstDedup`, carrying the values already emitted. -/
def firstDedupGo [DecidableEq β] (seen : List β) : List β → List β
  | [] => []
  | x :: xs =>
    if x ∈ seen then firstDedupGo seen xs
    else x :: firstDedupGo (x :: seen) xs

/-- Distinct values in first-encounter order. -/
def firstDedup [DecidableEq β] (l : List β) : List β := firstDedupGo [] l

/-- Stable insertion for a descending sort on a `Nat` key. -/
def insDesc (key : α → Nat) (r : α) : List α → List α
  | [] => [r]
  | x :: xs => if key x ≤ key r then r :: x :: xs else x :: insDesc key r xs

/-- Stable descending sort on a `Nat` key (`sort_values(..., ascending=False)`). -/
def sortDesc (key : α → Nat) : List α → List α
  | [] => []
  | x :: xs => insDesc key x (sortDesc key xs)

/-- `series.value_counts()`: distinct values with their counts, descending
by count, ties in first-encounter order. -/
def valueCounts [DecidableEq β] (l : List β) : List (β × Nat) :=
  sortDesc (fun e => e.2)
    ((firstDedup l).map (fun k => (k, l.countP (fun x => x == k))))

/-! ## Rounding (`round(x, 2)`) -/

/-- Python's banker's rounding to the nearest integer. -/
def roundHalfEven (q : Rat) : Int :=
  let f := q.floor
  let r := q - (f : Rat)
  if r < 1 / 2 then f
  else if 1 / 2 < r then f + 1
  else if f % 2 = 0 then f else f + 1

/-- `round(q, 2)`. -/
def round2 (q : Rat) : Rat := ((roundHalfEven (q * 100) : Rat)) / 100

/-! ## The analytics engine (`SEOLogAnalyzer`) -/

/-- The bot-only view built once at construction:
`df[df['is_bot'] == True]`. -/
def botSubset (recs : List Record) : List Record := recs.filter (fun r => r.is_bot)

/-- The rows of one `bot_type` group of the bot subset (null keys dropped
by pandas `groupby`). -/
def botGroup (recs : List Record) (k : String) : List Record :=
  (botSubset recs).filter (fun r => r.bot_type == some k)

/-- The group keys of `bot_df.groupby('bot_type')`, ascending. -/
def botTypeKeys (recs : List Record) : List String :=
  sKeys strLt ((botSubset recs).filterMap (fun r => r.bot_type))

/-- A timestamp comparison key: seconds on the proleptic Gregorian
timeline, offset-corrected (naive timestamps taken at offset 0). -/
def daysFromCivil (y : Int) (m : Nat) (d : Nat) : Int :=
  let y := if m ≤ 2 then y - 1 else y
  let era : Int := (if 0 ≤ y then y else y - 399) / 400
  let yoe := y - era * 400
  let doy : Int := (153 * ((m : Int) + (if 2 < m then -3 else 9)) + 2) / 5 + d - 1
  let doe := yoe * 365 + yoe / 4 - yoe / 100 + doy
  era * 146097 + doe - 719468

def tsKey (t : Timestamp) : Int :=
  (daysFromCivil t.year t.month t.day) * 86400
    + t.hour * 3600 + t.minute * 60 + t.second - (t.tz.getD 0) * 60

/-- `df['timestamp'].min()` (first minimum kept on ties). -/
def minTs (recs : List Record) : Option Timestamp :=
  recs.foldl (fun acc r =>
    match acc with
    | none => some r.timestamp
    | some t => if tsKey r.timestamp < tsKey t then some r.timestamp else some t)
    none

/-- `df['timestamp'].max()` (first maximum kept on ties). -/
def maxTs (recs : List Record) : Option Timestamp :=
  recs.foldl (fun acc r =>
    match acc with
    | none => some r.timestamp
    | some t => if tsKey t < tsKey r.timestamp then some r.timestamp else some t)
    none

/-- The dict returned by `crawl_budget_summary` (`date_range` flattened into
its two entries; the source renders the timestamps with `str`, which the
claims do not inspect). -/
structure Summary where
  total_requests : Nat
  bot_requests : Nat
  bot_percentage : Rat
  unique_bots : Nat
  unique_pages_crawled : Nat
  date_start : Option Timestamp
  date_end : Option Timestamp
deriving DecidableEq, Repr

/-- `SEOLogAnalyzer.crawl_budget_summary`. -/
def crawl_budget_summary (recs : List Record) : Summary :=
  let total := recs.length
  let bots := (botSubset recs).length
  { total_requests := total,
    bot_requests := bots,
    bot_percentage :=
      if 0 < total then round2 ((bots : Rat) / (total : Rat) * 100) else 0,
    unique_bots := (botTypeKeys recs).length,
    unique_pages_crawled :=
      (sKeys strLt ((botSubset recs).map (fun r => r.path))).length,
    date_start := minTs recs,
    date_end := maxTs recs }

/-- One row of the `bot_distribution` frame. -/
structure BotRow where
  bot_type : String
  total_requests : Nat
  successful_requests : Nat
  total_bytes : Nat
  success_rate : Rat
deriving DecidableEq, Repr

/-- The aggregation of one `bot_type` group (count of `path`, count of
`status == 200`, sum of `bytes`, derived rounded success rate). -/
def mkBotRow (recs : List Record) (k : String) : BotRow :=
  let g := botGroup recs k
  let tot := g.length
  let succ := g.countP (fun r => r.status == 200)
  { bot_type := k, total_requests := tot, successful_requests := succ,
    total_bytes := (g.map (fun r => r.bytes)).sum,
    success_rate := round2 ((succ : Rat) / (tot : Rat) * 100) }

/-- `SEOLogAnalyzer.bot_distribution`: per-bot aggregation sorted
descending by `total_requests`. -/
def bot_distribution (recs : List Record) : List BotRow :=
  sortDesc (fun r => r.total_requests) ((botTypeKeys recs).map (mkBotRow recs))

/-- One row of the `status_code_analysis` frame: the raw
`bot_type × status` cross-tab row plus the four derived range columns, each
summed over the cross-tab columns falling in the range. -/
structure StatusRow where
  bot_type : String
  raw : List (Nat × Nat)
  c2 : Nat
  c3 : Nat
  c4 : Nat
  c5 : Nat
deriving DecidableEq, Repr

/-- The cross-tab columns: every status present in the bot subset, ascending. -/
def statusCols (recs : List Record) : List Nat :=
  sKeys natLt ((botSubset recs).map (fun r => r.status))

/-- One `bot_type` row of `status_code_analysis`. -/
def mkStatusRow (recs : List Record) (k : String) : StatusRow :=
  let g := botGroup recs k
  let cols := statusCols recs
  let cnt := fun s => g.countP (fun r => r.status == s)
  { bot_type := k,
    raw := cols.map (fun s => (s, cnt s)),
    c2 := ((cols.filter (fun s => decide (200 ≤ s ∧ s < 300))).map cnt).sum,
    c3 := ((cols.filter (fun s => decide (300 ≤ s ∧ s < 400))).map cnt).sum,
    c4 := ((cols.filter (fun s => decide (400 ≤ s ∧ s < 500))).map cnt).sum,
    c5 := ((cols.filter (fun s => decide (500 ≤ s ∧ s < 600))).map cnt).sum }

/-- `SEOLogAnalyzer.status_code_analysis` (groupby order, no further sort). -/
def status_code_analysis (recs : List Record) : List StatusRow :=
  (botTypeKeys recs).map (mkStatusRow recs)

/-- One row of the `crawl_frequency_by_path` frame. -/
structure PathRow where
  path : String
  crawl_count : Nat
  primary_bot : Option String
  success_rate : Rat
deriving DecidableEq, Repr

/-- The group keys of `bot_df.groupby('path')`, ascending. -/
def pathKeys (recs : List Record) : List String :=
  sKeys strLt ((botSubset recs).map (fun r => r.path))

/-- The aggregation of one path group.  `primary_bot` is
`value_counts().index[0]`: the most frequent non-null bot type (`none` when
there is none — in the source an all-null non-empty group would raise,
which no Record built by the parser can produce since `is_bot` implies a
present `bot_type`).  The success rate is **not** rounded in the source. -/
def mkPathRow (recs : List Record) (p : String) : PathRow :=
  let g := (botSubset recs).filter (fun r => r.path == p)
  { path := p,
    crawl_count := g.length,
    primary_bot :=
      match valueCounts (g.filterMap (fun r => r.bot_type)) with
      | [] => none
      | e :: _ => some e.1,
    success_rate :=
      if 0 < g.length then
        (g.countP (fun r => r.status == 200) : Rat) / (g.length : Rat) * 100
      else 0 }

/-- `SEOLogAnalyzer.crawl_frequency_by_path` (default `min_crawls = 5`):
group by path, keep rows with `crawl_count >= min_crawls`, sort descending
by `crawl_count`. -/
def crawl_frequency_by_path (recs : List Record) (min_crawls : Nat) :
    List PathRow :=
  sortDesc (fun r => r.crawl_count)
    (((pathKeys recs).map (mkPathRow recs)).filter
      (fun r => decide (min_crawls ≤ r.crawl_count)))

/-- `SEOLogAnalyzer.identify_crawl_traps` (default `threshold = 100`):
the paths whose bot-record count strictly exceeds `threshold`, read off the
filtered `value_counts` index. -/
def identify_crawl_traps (recs : List Record) (threshold : Nat) : List String :=
  ((valueCounts ((botSubset recs).map (fun r => r.path))).filter
    (fun e => decide (threshold < e.2))).map (fun e => e.1)

/-! ## Lemmas about the grouping and sorting primitives -/

/-- `IsStrictTotal lt`: the three facts the sorted-key lemmas need of a
comparator. -/
structure IsStrictTotal [DecidableEq β] (lt : β → β → Bool) : Prop where
  trans : ∀ a b c, lt a b = true → lt b c = true → lt a c = true
  total : ∀ a b, lt a b = false → a ≠ b → lt b a = true
  ne : ∀ a b, lt a b = true → a ≠ b

theorem chLt_ne (a b : Char) (h : chLt a b = true) : a ≠ b := by
  intro hab
  subst hab
  simp [chLt] at h

theorem chLt_total (a b : Char) (h : chLt a b = false) (hne : a ≠ b) :
    chLt b a = true := by
  simp only [chLt, decide_eq_false_iff_not, Nat.not_lt] at h
  simp only [chLt, decide_eq_true_eq]
  rcases Nat.lt_or_ge b.toNat a.toNat with hlt | hge
  · exact hlt
  · exfalso
    apply hne
    apply Char.ext
    exact UInt32.ext (Nat.le_antisymm hge h)

theorem listLt_strictTotal : IsStrictTotal listLt := by
  constructor
  · intro a
    induction a with
    | nil =>
      intro b c hab hbc
      cases b <;> cases c <;> simp_all [listLt]
    | cons x xs ih =>
      intro b c hab hbc
      cases b with
      | nil => simp [listLt] at hab
      | cons y ys =>
        cases c with
        | nil => simp [listLt] at hbc
        | cons z zs =>
          simp only [listLt] at hab hbc ⊢
          by_cases hxy : x = y <;> by_cases hyz : y = z
          · subst hxy; subst hyz
            simp only [if_pos rfl] at hab hbc ⊢
            exact ih ys zs hab hbc
          · subst hxy
            rw [if_pos rfl] at hab
            rw [if_neg hyz] at hbc ⊢
            exact hbc
          · subst hyz
            rw [if_neg hxy] at hab ⊢
            exact hab
          · rw [if_neg hxy] at hab
            rw [if_neg hyz] at hbc
            simp only [chLt, decide_eq_true_eq] at hab hbc
            have hxz : x.toNat < z.toNat := hab.trans hbc
            have : x ≠ z := fun he => by subst he; omega
            rw [if_neg this]
            simp [chLt, hxz]
  · intro a
    induction a with
    | nil =>
      intro b h hne
      cases b with
      | nil => exact absurd rfl hne
      | cons y ys => simp [listLt] at h
    | cons x xs ih =>
      intro b h hne
      cases b with
      | nil => simp [listLt]
      | cons y ys =>
        simp only [listLt] at h ⊢
        by_cases hxy : x = y
        · subst hxy
          rw [if_pos rfl] at h ⊢
          exact ih ys h (fun he => hne (by rw [he]))
        · rw [if_neg hxy] at h
          rw [if_neg (Ne.symm hxy)]
          exact chLt_total x y h hxy
  · intro a
    induction a with
    | nil =>
      intro b h
      cases b <;> simp_all [listLt]
    | cons x xs ih =>
      intro b h
      cases b with
      | nil => simp [listLt] at h
      | cons y ys =>
        simp only [listLt] at h
        by_cases hxy : x = y
        · subst hxy
          rw [if_pos rfl] at h
          intro he
          exact ih ys h (by injection he)
        · exact fun he => hxy (by injection he)

theorem strLt_strictTotal : IsStrictTotal strLt := by
  have h := listLt_strictTotal
  constructor
  · intro a b c hab hbc
    exact h.trans a.data b.data c.data hab hbc
  · intro a b hab hne
    refine h.total a.data b.data hab (fun he => hne ?_)
    exact congrArg String.mk he
  · intro a b hab he
    exact h.ne a.data b.data hab (by rw [he])

theorem natLt_strictTotal : IsStrictTotal natLt := by
  constructor
  · intro a b c hab hbc
    simp only [natLt, decide_eq_true_eq] at hab hbc ⊢
    omega
  · intro a b hab hne
    simp only [natLt, decide_eq_false_iff_not] at hab
    simp only [natLt, decide_eq_true_eq]
    omega
  · intro a b hab
    simp only [natLt, decide_eq_true_eq] at hab
    omega

theorem mem_sIns [DecidableEq β] (lt : β → β → Bool) (a k : β) :
    ∀ l : List β, a ∈ sIns lt k l ↔ a = k ∨ a ∈ l
  | [] => by simp [sIns]
  | x :: xs => by
    simp only [sIns]
    split_ifs with h1 h2
    · simp
    · subst h2; simp only [List.mem_cons]; tauto
    · simp only [List.mem_cons, mem_sIns lt a k xs]
      tauto

theorem pairwise_sIns [DecidableEq β] (lt : β → β → Bool)
    (hst : IsStrictTotal lt) (k : β) :
    ∀ l : List β, l.Pairwise (fun a b => lt a b = true) →
      (sIns lt k l).Pairwise (fun a b => lt a b = true)
  | [], _ => by simp [sIns]
  | x :: xs, h => by
    rcases List.pairwise_cons.mp h with ⟨hx, hxs⟩
    simp only [sIns]
    split_ifs with h1 h2
    · exact List.pairwise_cons.mpr ⟨by
        intro b hb
        rcases List.mem_cons.mp hb with rfl | hb
        · exact h1
        · exact hst.trans k x b h1 (hx b hb), h⟩
    · subst h2; exact h
    · have hxk : lt x k = true :=
        hst.total k x (Bool.eq_false_iff.mpr h1) h2
      exact List.pairwise_cons.mpr ⟨by
        intro b hb
        rcases (mem_sIns lt b k xs).mp hb with rfl | hb
        · exact hxk
        · exact hx b hb, pairwise_sIns lt hst k xs hxs⟩

theorem pairwise_sKeys [DecidableEq β] (lt : β → β → Bool)
    (hst : IsStrictTotal lt) :
    ∀ l : List β, (sKeys lt l).Pairwise (fun a b => lt a b = true)
  | [] => List.Pairwise.nil
  | x :: xs => pairwise_sIns lt hst x (sKeys lt xs) (pairwise_sKeys lt hst xs)

theorem nodup_sKeys [DecidableEq β] (lt : β → β → Bool)
    (hst : IsStrictTotal lt) (l : List β) : (sKeys lt l).Nodup :=
  (pairwise_sKeys lt hst l).imp (fun hab => hst.ne _ _ hab)

theorem mem_sKeys [DecidableEq β] (lt : β → β → Bool) (a : β) :
    ∀ l : List β, a ∈ sKeys lt l ↔ a ∈ l
  | [] => Iff.rfl
  | x :: xs => by
    show a ∈ sIns lt x (sKeys lt xs) ↔ _
    rw [mem_sIns, mem_sKeys lt a xs, List.mem_cons]

theorem mem_firstDedupGo [DecidableEq β] (a : β) :
    ∀ (l seen : List β), a ∈ firstDedupGo seen l ↔ a ∈ l ∧ a ∉ seen
  | [], seen => by simp [firstDedupGo]
  | x :: xs, seen => by
    simp only [firstDedupGo]
    split_ifs with hx
    · rw [mem_firstDedupGo a xs seen]
      simp only [List.mem_cons]
      constructor
      · exact fun h => ⟨Or.inr h.1, h.2⟩
      · rintro ⟨rfl | h1, h2⟩
        · exact absurd hx h2
        · exact ⟨h1, h2⟩
    · simp only [List.mem_cons, mem_firstDedupGo a xs (x :: seen),
        List.mem_cons, not_or]
      constructor
      · rintro (rfl | ⟨h1, h2, h3⟩)
        · exact ⟨Or.inl rfl, hx⟩
        · exact ⟨Or.inr h1, h3⟩
      · rintro ⟨rfl | h1, h2⟩
        · exact Or.inl rfl
        · by_cases hax : a = x
          · exact Or.inl hax
          · exact Or.inr ⟨h1, hax, h2⟩

theorem nodup_firstDedupGo [DecidableEq β] :
    ∀ (l seen : List β), (firstDedupGo seen l).Nodup
  | [], _ => by simp [firstDedupGo]
  | x :: xs, seen => by
    simp only [firstDedupGo]
    split_ifs with hx
    · exact nodup_firstDedupGo xs seen
    · rw [List.nodup_cons]
      refine ⟨fun hmem => ?_, nodup_firstDedupGo xs (x :: seen)⟩

      exact ((mem_firstDedupGo x xs (x :: seen)).mp hmem).2
        (List.mem_cons_self x seen)

theorem mem_firstDedup [DecidableEq β] (l : List β) (a : β) :
    a ∈ firstDedup l ↔ a ∈ l := by
  rw [firstDedup, mem_firstDedupGo a l []]
  simp

theorem nodup_firstDedup [DecidableEq β] (l : List β) :
    (firstDedup l).Nodup := nodup_firstDedupGo l []

theorem perm_insDesc (key : α → Nat) (r : α) :
    ∀ l : List α, (insDesc key r l).Perm (r :: l)
  | [] => List.Perm.refl _
  | x :: xs => by
    simp only [insDesc]
    split_ifs with h
    · exact List.Perm.refl _
    · exact ((perm_insDesc key r xs).cons x).trans (List.Perm.swap r x xs)

theorem perm_sortDesc (key : α → Nat) :
    ∀ l : List α, (sortDesc key l).Perm l
  | [] => List.Perm.refl _
  | x :: xs =>
    (perm_insDesc key x (sortDesc key xs)).trans ((perm_sortDesc key xs).cons x)

theorem pairwise_insDesc (key : α → Nat) (S : α → α → Prop)
    (hS1 : ∀ a b, key b < key a → S a b)
    (hS2 : ∀ a b, S a b → key b ≤ key a) (r : α) :
    ∀ l : List α, l.Pairwise S → (∀ x ∈ l, key x ≤ key r → S r x) →
      (insDesc key r l).Pairwise S
  | [], _, _ => by simp [insDesc]
  | x :: xs, h, hr => by
    rcases List.pairwise_cons.mp h with ⟨hx, hxs⟩
    simp only [insDesc]
    split_ifs with h1
    · refine List.pairwise_cons.mpr ⟨?_, h⟩
      intro b hb
      rcases List.mem_cons.mp hb with rfl | hb
      · exact hr b (List.mem_cons_self _ _) h1
      · exact hr b (List.mem_cons_of_mem _ hb) ((hS2 x b (hx b hb)).trans h1)
    · refine List.pairwise_cons.mpr ⟨?_, ?_⟩
      · intro b hb
        rcases List.mem_cons.mp (((perm_insDesc key r xs).mem_iff).mp hb)
          with rfl | h'
        · exact hS1 x b (Nat.lt_of_not_le h1)
        · exact hx b h'
      · exact pairwise_insDesc key S hS1 hS2 r xs hxs
          (fun y hy hle => hr y (List.mem_cons_of_mem _ hy) hle)

theorem pairwise_sortDesc (key : α → Nat) (R S : α → α → Prop)
    (hS1 : ∀ a b, key b < key a → S a b)
    (hS2 : ∀ a b, S a b → key b ≤ key a)
    (hRS : ∀ a b, R a b → key b ≤ key a → S a b) :
    ∀ l : List α, l.Pairwise R → (sortDesc key l).Pairwise S
  | [], _ => List.Pairwise.nil
  | x :: xs, h => by
    rcases List.pairwise_cons.mp h with ⟨hx, hxs⟩
    exact pairwise_insDesc key S hS1 hS2 x (sortDesc key xs)
      (pairwise_sortDesc key R S hS1 hS2 hRS xs hxs)
      (fun y hy hle => hRS x y (hx y ((perm_sortDesc key xs).mem_iff.mp hy)) hle)

/-! ## Counting lemmas -/

theorem sum_map_add (f g : β → Nat) :
    ∀ l : List β, (l.map (fun x => f x + g x)).sum = (l.map f).sum + (l.map g).sum
  | [] => rfl
  | x :: xs => by
    simp only [List.map_cons, List.sum_cons, sum_map_add f g xs]
    omega

theorem sum_indicator_not_mem [DecidableEq β] (v : β) :
    ∀ l : List β, v ∉ l → (l.map (fun c => if v == c then 1 else 0)).sum = 0
  | [], _ => rfl
  | x :: xs, h => by
    have hx : ¬v = x := fun hv => h (hv ▸ List.mem_cons_self x xs)
    simp only [List.map_cons, List.sum_cons, beq_eq_false_iff_ne.mpr hx,
      if_false, Bool.false_eq_true, Nat.zero_add]
    exact sum_indicator_not_mem v xs (fun hv => h (List.mem_cons_of_mem x hv))

theorem sum_indicator_nodup [DecidableEq β] (v : β) :
    ∀ l : List β, l.Nodup →
      (l.map (fun c => if v == c then 1 else 0)).sum = if v ∈ l then 1 else 0
  | [], _ => rfl
  | x :: xs, h => by
    rcases List.nodup_cons.mp h with ⟨hx, hxs⟩
    by_cases hv : v = x
    · subst hv
      rw [List.map_cons, List.sum_cons, sum_indicator_not_mem v xs hx]
      simp
    · simp only [List.map_cons, List.sum_cons, beq_eq_false_iff_ne.mpr hv,
        Bool.false_eq_true, if_false, Nat.zero_add, sum_indicator_nodup v xs hxs,
        List.mem_cons, hv, false_or]

theorem sum_countP_filter [DecidableEq β] (key : α → β) (p : β → Bool)
    (cols : List β) (hnd : cols.Nodup) :
    ∀ l : List α, (∀ r ∈ l, key r ∈ cols) →
      ((cols.filter p).map (fun c => l.countP (fun r => key r == c))).sum
        = l.countP (fun r => p (key r))
  | [], _ => by
    simp only [List.countP_nil]
    exact List.sum_eq_zero (by simp)
  | r :: l, hc => by
    have hl : ∀ x ∈ l, key x ∈ cols :=
      fun x hx => hc x (List.mem_cons_of_mem r hx)
    have hr : key r ∈ cols := hc r (List.mem_cons_self r l)
    simp only [List.countP_cons]
    have step : ((cols.filter p).map
        (fun c => l.countP (fun x => key x == c) + if key r == c then 1 else 0)).sum
        = ((cols.filter p).map (fun c => l.countP (fun x => key x == c))).sum
          + ((cols.filter p).map (fun c => if key r == c then 1 else 0)).sum :=
      sum_map_add _ _ _
    simp only [step, sum_countP_filter key p cols hnd l hl,
      sum_indicator_nodup (key r) (cols.filter p) (hnd.filter p),
      List.mem_filter, hr, true_and]

theorem sum_countP_all [DecidableEq β] (key : α → β)
    (cols : List β) (hnd : cols.Nodup) (l : List α)
    (hc : ∀ r ∈ l, key r ∈ cols) :
    (cols.map (fun c => l.countP (fun r => key r == c))).sum = l.length := by
  have h := sum_countP_filter key (fun _ => true) cols hnd l hc
  simpa [List.filter_true, List.countP_true] using h

/-! ## Concrete inputs used by the claim theorems -/

/-- A fixed parsed timestamp for analytics examples. -/
def ts2024 : Timestamp := ⟨2024, 10, 10, 13, 55, 36, some 0⟩

/-- A record as the parser would produce it, with the fields the analytics
claims vary (`path`, `status`, `bot_type`). -/
def mkRec (p : String) (st : Nat) (bt : Option String) : Record :=
  ⟨"66.249.66.1", ts2024, "GET", p, st, 100, "-", "ua", bt, bt.isSome⟩

def goodLine : String :=
  "66.249.66.1 - - [10/Oct/2024:13:55:36 +0000] \"GET /page.html HTTP/1.1\" 200 5120 \"-\" \"Googlebot/2.1\""

/-- A line whose bracketed timestamp field is a single space: the structural
match succeeds, both strptime calls fail, and `split()[0]` raises. -/
def wsTimestampLine : String :=
  "127.0.0.1 - - [ ] \"GET / HTTP/1.1\" 200 0 \"-\" \"x\""

/-- A line whose user-agent field is not quoted. -/
def noQuoteLine : String :=
  "127.0.0.1 - - [10/Oct/2024:13:55:36 +0000] \"GET / HTTP/1.1\" 200 0 \"-\" Mozilla"

/-- A line whose status field is not numeric. -/
def badStatusLine : String :=
  "127.0.0.1 - - [10/Oct/2024:13:55:36 +0000] \"GET / HTTP/1.1\" abc 0 \"-\" \"x\""

/-! ## Claim C1 -/

/-- Claim C1: bot classification scans `BOT_PATTERNS` in declaration order
with case-insensitive substring search; the first matching pattern's name is
assigned, so for a user agent matched by several patterns the
earliest-declared one wins; with no match the bot type is `none`, and every
record built by `parse_line` has `bot_type = _identify_bot(user_agent)` and
`is_bot` true exactly when `bot_type` is present. -/
theorem claim_C1 :
    (∀ (ua : String) (i : Nat) (hi : i < BOT_PATTERNS.length),
        matchesCI (BOT_PATTERNS.get ⟨i, hi⟩).2 ua = true →
        (∀ j (hj : j < i),
          matchesCI (BOT_PATTERNS.get ⟨j, hj.trans hi⟩).2 ua = false) →
        identify_bot ua = some (BOT_PATTERNS.get ⟨i, hi⟩).1)
    ∧ (∀ ua : String,
        (∀ i (hi : i < BOT_PATTERNS.length),
          matchesCI (BOT_PATTERNS.get ⟨i, hi⟩).2 ua = false) →
        identify_bot ua = none)
    ∧ (∀ (line : String) (rec : Record), parse_line line = .ok (some rec) →
        rec.bot_type = identify_bot rec.user_agent
          ∧ rec.is_bot = rec.bot_type.isSome) := by
  refine ⟨?_, ?_, ?_⟩
  · exact fun ua i hi hm hn => identify_botAux_first ua BOT_PATTERNS i hi hm hn
  · exact fun ua h => identify_botAux_none ua BOT_PATTERNS h
  · intro line rec h
    unfold parse_line at h
    split at h
    · exact absurd h (by simp)
    · split at h
      · injection h with h1
        injection h1 with h2
        rw [← h2]
        exact ⟨rfl, rfl⟩
      · split at h
        · exact absurd h (by simp)
        · split at h
          · injection h with h1
            injection h1 with h2
            rw [← h2]
            exact ⟨rfl, rfl⟩
          · exact absurd h (by simp)

/-- Witness for C1: `"Mozilla/5.0 AhrefsBot/7.0"` is matched by the patterns
at indices 7 (`ahrefs`) and 11 (`ahrefsbot`); the scan assigns the
earliest-declared name `ahrefs`. -/
theorem claim_C1_witness :
    matchesCI (BOT_PATTERNS.get ⟨7, by decide⟩).2 "Mozilla/5.0 AhrefsBot/7.0" = true
    ∧ matchesCI (BOT_PATTERNS.get ⟨11, by decide⟩).2 "Mozilla/5.0 AhrefsBot/7.0" = true
    ∧ identify_bot "Mozilla/5.0 AhrefsBot/7.0" = some "ahrefs" := by
  refine ⟨by decide, by decide, ?_⟩
  have h := claim_C1.1 "Mozilla/5.0 AhrefsBot/7.0" 7 (by decide) (by decide)
    (by decide)
  exact h

/-! ## Claim C2 -/

/-- Claim C2 (the code bug it exposes): `parse_line` does return `None` on a
structural mismatch (unquoted field, non-numeric status) and on an
unparseable timestamp, and returns a full record on a well-formed line — but
it is **not** exception-free: when the bracketed timestamp field is pure
whitespace, the `ValueError` fallback evaluates `timestamp.split()[0]` on an
empty list and raises an uncaught `IndexError`. -/
theorem claim_C2 :
    parse_line wsTimestampLine = .error "IndexError: list index out of range"
    ∧ parse_line noQuoteLine = .ok none
    ∧ parse_line badStatusLine = .ok none
    ∧ parse_line goodLine = .ok (some
        ⟨"66.249.66.1", ⟨2024, 10, 10, 13, 55, 36, some 0⟩, "GET",
          "/page.html", 200, 5120, "-", "Googlebot/2.1",
          some "googlebot", true⟩) :=
  ⟨rfl, rfl, rfl, rfl⟩

/-! ## Claim C10 -/

/-- A successful scan result comes from the first matching entry: its name,
a successful match there, and failures strictly before it. -/
theorem identify_botAux_some (ua n : String) :
    ∀ l : List (String × String), identify_botAux ua l = some n →
      ∃ (i : Nat) (hi : i < l.length),
        (l.get ⟨i, hi⟩).1 = n ∧ matchesCI (l.get ⟨i, hi⟩).2 ua = true ∧
        ∀ j (hj : j < i), matchesCI (l.get ⟨j, hj.trans hi⟩).2 ua = false
  | [] => by simp [identify_botAux]
  | (nm, pat) :: rest => by
    simp only [identify_botAux]
    split_ifs with hm
    · intro he
      injection he with he
      exact ⟨0, Nat.succ_pos _, he, hm,
        fun j hj => absurd hj (Nat.not_lt_zero j)⟩
    · intro he
      obtain ⟨i, hi, h1, h2, h3⟩ := identify_botAux_some ua n rest he
      refine ⟨i + 1, Nat.succ_lt_succ hi, h1, h2, ?_⟩
      intro j hj
      cases j with
      | zero => exact Bool.eq_false_iff.mpr hm
      | succ j' => exact h3 j' (Nat.lt_of_succ_lt_succ hj)

/-- Claim C10: the names `googlebot_mobile`, `ahrefsbot` and `semrushbot`
are never assigned: every string matching `Googlebot-Mobile` also matches
the earlier `Googlebot`, and the `ahrefsbot`/`semrushbot` entries repeat the
patterns of the earlier `ahrefs`/`semrush` entries; each of the other ten
declared names is reachable. -/
theorem claim_C10 :
    (∀ ua : String,
      identify_bot ua ≠ some "googlebot_mobile"
      ∧ identify_bot ua ≠ some "ahrefsbot"
      ∧ identify_bot ua ≠ some "semrushbot")
    ∧ identify_bot "Googlebot/2.1" = some "googlebot"
    ∧ identify_bot "Googlebot-Mobile/2.1" = some "googlebot"
    ∧ identify_bot "bingbot/2.0" = some "bingbot"
    ∧ identify_bot "YandexBot/3.0" = some "yandex"
    ∧ identify_bot "Baiduspider/2.0" = some "baidu"
    ∧ identify_bot "DuckDuckBot/1.1" = some "duckduckgo"
    ∧ identify_bot "SemrushBot/7" = some "semrush"
    ∧ identify_bot "AhrefsBot/7.0" = some "ahrefs"
    ∧ identify_bot "Screaming Frog SEO Spider/19" = some "screaming_frog"
    ∧ identify_bot "MJ12bot/v1.4" = some "mj12bot"
    ∧ identify_bot "DotBot/1.2" = some "dotbot" := by
  refine ⟨?_, rfl, rfl, rfl, rfl, rfl, rfl, rfl, rfl, rfl, rfl, rfl⟩
  intro ua
  have hshadow : matchesCI "Googlebot-Mobile" ua = true →
      matchesCI "Googlebot" ua = true :=
    fun h => hasSub_of_pref (lc "Googlebot") (lc "Googlebot-Mobile") (lc ua)
      (by decide) h
  refine ⟨?_, ?_, ?_⟩
  · intro h
    obtain ⟨i, hi, h1, h2, h3⟩ := identify_botAux_some ua _ BOT_PATTERNS h
    have hidx : ∀ j (hj : j < BOT_PATTERNS.length),
        (BOT_PATTERNS.get ⟨j, hj⟩).1 = "googlebot_mobile" → j = 1 := by decide
    obtain rfl : i = 1 := hidx i hi h1
    have h2' : matchesCI "Googlebot-Mobile" ua = true := h2
    have hj : matchesCI "Googlebot" ua = false := h3 0 (by omega)
    rw [hshadow h2'] at hj
    exact absurd hj (by decide)
  · intro h
    obtain ⟨i, hi, h1, h2, h3⟩ := identify_botAux_some ua _ BOT_PATTERNS h
    have hidx : ∀ j (hj : j < BOT_PATTERNS.length),
        (BOT_PATTERNS.get ⟨j, hj⟩).1 = "ahrefsbot" → j = 11 := by decide
    obtain rfl : i = 11 := hidx i hi h1
    have h2' : matchesCI "AhrefsBot" ua = true := h2
    have hj : matchesCI "AhrefsBot" ua = false := h3 7 (by omega)
    rw [h2'] at hj
    exact absurd hj (by decide)
  · intro h
    obtain ⟨i, hi, h1, h2, h3⟩ := identify_botAux_some ua _ BOT_PATTERNS h
    have hidx : ∀ j (hj : j < BOT_PATTERNS.length),
        (BOT_PATTERNS.get ⟨j, hj⟩).1 = "semrushbot" → j = 12 := by decide
    obtain rfl : i = 12 := hidx i hi h1
    have h2' : matchesCI "SemrushBot" ua = true := h2
    have hj : matchesCI "SemrushBot" ua = false := h3 6 (by omega)
    rw [h2'] at hj
    exact absurd hj (by decide)

/-- Witness for C10: instantiating its universal part at the canonical
`Googlebot-Mobile` user agent. -/
theorem claim_C10_witness :
    identify_bot "Googlebot-Mobile/2.1" ≠ some "googlebot_mobile" :=
  (claim_C10.1 "Googlebot-Mobile/2.1").1

/-! ## Claim C4 -/

/-- A limit of `0` is falsy: the loop never breaks, exactly as with no
limit. -/
theorem parse_fileGo_limit_zero :
    ∀ (lines : List String) (i : Nat),
      parse_fileGo lines i (some 0) = parse_fileGo lines i none
  | [], _ => rfl
  | line :: rest, i => by
    have h0 : limitHit (some 0) i = false := by simp [limitHit]
    have h1 : limitHit none i = false := rfl
    simp only [parse_fileGo, h0, h1, Bool.false_eq_true, if_false,
      parse_fileGo_limit_zero rest (i + 1)]

/-- With a positive limit, at most `limit - i` further lines are examined. -/
theorem parse_fileGo_count_le :
    ∀ (lines : List String) (i l : Nat), 0 < l →
      (parse_fileGo lines i (some l)).2 ≤ l - i
  | [], _, _, _ => by simp [parse_fileGo]
  | line :: rest, i, l, hl => by
    by_cases hstop : limitHit (some l) i = true
    · simp [parse_fileGo, hstop]
    · have hi : i < l := by
        simp only [limitHit, Bool.and_eq_true, decide_eq_true_eq] at hstop
        omega
      rw [parse_fileGo]
      simp only [hstop, Bool.false_eq_true, if_false]
      rcases hp : parse_line (stripWs line) with e | opt
      · simpa using by omega
      · have hrec := parse_fileGo_count_le rest (i + 1) l hl
        simp only []
        omega

/-- Claim C4 (amended): the loop consumes lines in order and, for every
**positive** limit, examines at most `limit` lines, counting every examined
line whether or not it parses; a limit of `0` is falsy in
`if limit and i >= limit` and so disables the limit entirely. -/
theorem claim_C4_amended :
    (∀ (lines : List String) (l : Nat), 0 < l →
      linesExamined lines (some l) ≤ l)
    ∧ (∀ lines : List String,
        parse_file lines (some 0) = parse_file lines none
        ∧ linesExamined lines (some 0) = linesExamined lines none)
    ∧ (linesExamined [noQuoteLine, noQuoteLine, noQuoteLine] (some 2) = 2
        ∧ parse_file [noQuoteLine, noQuoteLine, noQuoteLine] (some 2) = .ok []) := by
  refine ⟨?_, ?_, by decide, rfl⟩
  · intro lines l hl
    have := parse_fileGo_count_le lines 0 l hl
    simpa [linesExamined] using this
  · intro lines
    unfold parse_file linesExamined
    rw [parse_fileGo_limit_zero lines 0]
    exact ⟨rfl, rfl⟩

/-- Witness for C4: the positive-limit bound, instantiated at one line and
limit 1. -/
theorem claim_C4_witness :
    linesExamined [noQuoteLine] (some 1) ≤ 1 :=
  claim_C4_amended.1 [noQuoteLine] 1 (by decide)

/-- Counterexample to C4 as stated: with `limit = 0` and a one-line input,
one line is examined, exceeding the claimed bound of zero. -/
theorem claim_C4_cex :
    linesExamined [noQuoteLine] (some 0) = 1
    ∧ decide (linesExamined [noQuoteLine] (some 0) ≤ 0) = false := by decide

/-! ## Claim C3 -/

/-- Two bot records whose bot types are first encountered in the order
`yandex`, `bingbot` — the reverse of their alphabetical order. -/
def c3recs : List Record :=
  [mkRec "/a" 200 (some "yandex"), mkRec "/b" 200 (some "bingbot")]

/-- Counterexample to C3 as stated: on `c3recs` both bot types have total
request count 1 (a tie), the first-encountered bot type is `yandex`, yet
`bot_distribution` lists `bingbot` first — ties follow the groupby's
alphabetical key order, not first-encounter order. -/
theorem claim_C3_cex :
    (botSubset c3recs).filterMap (fun r => r.bot_type) = ["yandex", "bingbot"]
    ∧ (bot_distribution c3recs).map (fun r => r.total_requests) = [1, 1]
    ∧ (bot_distribution c3recs).map (fun r => r.bot_type)
        = ["bingbot", "yandex"] := by
  refine ⟨by decide, by decide, by decide⟩

/-- Claim C3 (amended): `bot_distribution` rows are ordered descending by
total request count, and rows with equal counts appear in ascending
alphabetical (code-point lexicographic) `bot_type` order — the stable sort
preserves the groupby's ascending key order — not in first-encounter
order. -/
theorem claim_C3_amended (recs : List Record) :
    (bot_distribution recs).Pairwise (fun a b =>
      b.total_requests < a.total_requests ∨
        (a.total_requests = b.total_requests
          ∧ strLt a.bot_type b.bot_type = true)) := by
  have hkeys : (botTypeKeys recs).Pairwise (fun a b => strLt a b = true) :=
    pairwise_sKeys strLt strLt_strictTotal _
  have hrows : ((botTypeKeys recs).map (mkBotRow recs)).Pairwise
      (fun a b => strLt a.bot_type b.bot_type = true) :=
    hkeys.map (mkBotRow recs) (fun a b hab => hab)
  exact pairwise_sortDesc (fun r : BotRow => r.total_requests)
    (fun a b : BotRow => strLt a.bot_type b.bot_type = true)
    (fun a b : BotRow => b.total_requests < a.total_requests ∨
      (a.total_requests = b.total_requests
        ∧ strLt a.bot_type b.bot_type = true))
    (fun a b hab => Or.inl hab)
    (fun a b hab => by
      show b.total_requests ≤ a.total_requests
      rcases hab with hab | ⟨hab, _⟩ <;> omega)
    (fun a b hab hle => by
      rcases Nat.lt_or_eq_of_le hle with hlt | heq
      · exact Or.inl hlt
      · exact Or.inr ⟨heq.symm, hab⟩)
    _ hrows

/-! ## Claim C5 -/

/-- The spec's end-to-end example: three bot records for `/x` with statuses
200, 200, 404 and one bot record for `/y` with status 200. -/
def c5recs : List Record :=
  [mkRec "/x" 200 (some "googlebot"), mkRec "/x" 200 (some "googlebot"),
   mkRec "/x" 404 (some "googlebot"), mkRec "/y" 200 (some "googlebot")]

unseal Rat.mul Rat.add Rat.inv Rat.sub in
/-- Counterexample to C5 as stated: the `/x` success rate produced by the
code is the exact, unrounded `200/3` (≈ 66.67), not `66.67` — the source
never rounds `crawl_frequency_by_path`'s success rate. -/
theorem claim_C5_cex :
    (crawl_frequency_by_path c5recs 1).map (fun r => r.success_rate)
      = [200 / 3, 100]
    ∧ (200 / 3 : Rat) ≠ 6667 / 100 := by
  refine ⟨by decide, by decide⟩

unseal Rat.mul Rat.add Rat.inv Rat.sub in
/-- Claim C5 (amended): on the spec's example, `crawl_frequency_by_path`
with `min_crawls = 1` yields `/x` with crawl count 3 and success rate
`200/3` (unrounded) before `/y` with crawl count 1 and success rate 100. -/
theorem claim_C5_amended :
    crawl_frequency_by_path c5recs 1 =
      [⟨"/x", 3, some "googlebot", 200 / 3⟩,
       ⟨"/y", 1, some "googlebot", 100⟩] := by decide

/-! ## Claim C6 -/

/-- Claim C6: on an empty record collection `crawl_budget_summary` returns
all-zero counts, a zero bot percentage (no division is attempted) and an
absent date range; on every non-empty collection the bot percentage is
bots/total × 100 rounded to two decimals. -/
theorem claim_C6 :
    crawl_budget_summary ([] : List Record) = ⟨0, 0, 0, 0, 0, none, none⟩
    ∧ ∀ recs : List Record, recs ≠ [] →
        (crawl_budget_summary recs).bot_percentage =
          round2 (((botSubset recs).length : Rat) / (recs.length : Rat) * 100) := by
  refine ⟨rfl, ?_⟩
  intro recs h
  have hpos : 0 < recs.length := List.length_pos.mpr h
  simp [crawl_budget_summary, hpos]

/-- Witness for C6: the non-empty case at a one-record collection. -/
theorem claim_C6_witness :
    (crawl_budget_summary [mkRec "/x" 200 (some "googlebot")]).bot_percentage =
      round2 (((botSubset [mkRec "/x" 200 (some "googlebot")]).length : Rat) /
        (([mkRec "/x" 200 (some "googlebot")] : List Record).length : Rat) * 100) :=
  claim_C6.2 [mkRec "/x" 200 (some "googlebot")] (by simp)

/-! ## Claim C7 -/

theorem mem_valueCounts [DecidableEq β] (l : List β) (k : β) (c : Nat) :
    (k, c) ∈ valueCounts l ↔ k ∈ l ∧ c = l.countP (fun x => x == k) := by
  unfold valueCounts
  rw [(perm_sortDesc (fun e : β × Nat => e.2) _).mem_iff]
  constructor
  · intro h
    rcases List.mem_map.mp h with ⟨x, hx, he⟩
    have h1 : x = k := congrArg Prod.fst he
    have h2 : l.countP (fun y => y == x) = c := congrArg Prod.snd he
    rw [← h1]
    exact ⟨(mem_firstDedup l x).mp hx, h2.symm⟩
  · rintro ⟨h1, rfl⟩
    exact List.mem_map.mpr ⟨k, (mem_firstDedup l k).mpr h1, rfl⟩

theorem nodup_valueCounts_fst [DecidableEq β] (l : List β) :
    ((valueCounts l).map Prod.fst).Nodup := by
  have hperm : ((valueCounts l).map Prod.fst).Perm
      (((firstDedup l).map
        (fun k => (k, l.countP (fun x => x == k)))).map Prod.fst) :=
    (perm_sortDesc (fun e : β × Nat => e.2) _).map Prod.fst
  rw [hperm.nodup_iff, List.map_map]
  have hid : (Prod.fst ∘ fun k => (k, l.countP (fun x => x == k)))
      = fun k : β => k := rfl
  rw [hid, List.map_id']
  exact nodup_firstDedup l

/-- Three bot records for `/a` and two for `/b`. -/
def c7recs : List Record :=
  [mkRec "/a" 200 (some "googlebot"), mkRec "/a" 200 (some "googlebot"),
   mkRec "/a" 200 (some "googlebot"), mkRec "/b" 200 (some "googlebot"),
   mkRec "/b" 200 (some "googlebot")]

/-- Claim C7: `identify_crawl_traps` returns exactly the distinct paths
whose bot-record count strictly exceeds the threshold; with threshold 2 a
path crawled 3 times is returned and a path crawled exactly 2 times is
not. -/
theorem claim_C7 :
    (∀ (recs : List Record) (t : Nat),
      (identify_crawl_traps recs t).Nodup
      ∧ ∀ p : String, p ∈ identify_crawl_traps recs t ↔
          t < (botSubset recs).countP (fun r => r.path == p))
    ∧ identify_crawl_traps c7recs 2 = ["/a"] := by
  constructor
  · intro recs t
    constructor
    · unfold identify_crawl_traps
      exact (nodup_valueCounts_fst _).sublist
        ((List.filter_sublist _).map _)
    · intro p
      constructor
      · intro hp
        rcases List.mem_map.mp hp with ⟨e, he, rfl⟩
        rcases List.mem_filter.mp he with ⟨hvc, hq⟩
        rcases e with ⟨k, c⟩
        obtain ⟨hkl, rfl⟩ := (mem_valueCounts _ k c).mp hvc
        simp only [decide_eq_true_eq] at hq
        rw [List.countP_map] at hq
        exact hq
      · intro hp
        have hpos : 0 < ((botSubset recs).map
            (fun r => r.path)).countP (fun x => x == p) := by
          rw [List.countP_map]
          exact Nat.lt_of_le_of_lt (Nat.zero_le t) hp
        have hmem : p ∈ (botSubset recs).map (fun r => r.path) := by
          rcases List.countP_pos_iff.mp hpos with ⟨a, ha, hap⟩
          exact (beq_iff_eq.mp hap) ▸ ha
        refine List.mem_map.mpr
          ⟨(p, ((botSubset recs).map (fun r => r.path)).countP
            (fun x => x == p)), ?_, rfl⟩
        refine List.mem_filter.mpr
          ⟨(mem_valueCounts _ p _).mpr ⟨hmem, rfl⟩, ?_⟩
        simp only [decide_eq_true_eq]
        rw [List.countP_map]
        exact hp
  · decide

/-- Witness for C7: it applies on a concrete collection and threshold. -/
theorem claim_C7_witness :
    (identify_crawl_traps c7recs 0).Nodup :=
  (claim_C7.1 c7recs 0).1

/-! ## Claim C8 -/

/-- A bot record with status 404 and one with status 600 (outside every
range bucket). -/
def c8recs : List Record :=
  [mkRec "/a" 404 (some "googlebot"), mkRec "/a" 600 (some "googlebot")]

/-- Claim C8: each derived summary column of `status_code_analysis` counts
the group's raw statuses with inclusive lower and exclusive upper bounds
(2xx = 200-299, 3xx = 300-399, 4xx = 400-499, 5xx = 500-599); concretely, a
bot record with status 404 lands in the 4xx column while a record with
status 600 is counted in no summary column yet keeps its raw cross-tab
cell. -/
theorem claim_C8 :
    (∀ (recs : List Record) (row : StatusRow),
      row ∈ status_code_analysis recs →
      (row.c2 = (botGroup recs row.bot_type).countP
          (fun r => decide (200 ≤ r.status ∧ r.status < 300))
        ∧ row.c3 = (botGroup recs row.bot_type).countP
            (fun r => decide (300 ≤ r.status ∧ r.status < 400))
        ∧ row.c4 = (botGroup recs row.bot_type).countP
            (fun r => decide (400 ≤ r.status ∧ r.status < 500))
        ∧ row.c5 = (botGroup recs row.bot_type).countP
            (fun r => decide (500 ≤ r.status ∧ r.status < 600))))
    ∧ status_code_analysis c8recs
        = [⟨"googlebot", [(404, 1), (600, 1)], 0, 0, 1, 0⟩] := by
  constructor
  · intro recs row hrow
    rcases List.mem_map.mp hrow with ⟨k, hk, rfl⟩
    have hnd : (statusCols recs).Nodup := nodup_sKeys natLt natLt_strictTotal _
    have hcomp : ∀ r ∈ botGroup recs k, r.status ∈ statusCols recs := by
      intro r hr
      have h1 : r ∈ botSubset recs := (List.mem_filter.mp hr).1
      exact (mem_sKeys natLt _ _).mpr (List.mem_map_of_mem _ h1)
    refine ⟨?_, ?_, ?_, ?_⟩
    · exact sum_countP_filter (fun r : Record => r.status)
        (fun s => decide (200 ≤ s ∧ s < 300)) (statusCols recs) hnd
        (botGroup recs k) hcomp
    · exact sum_countP_filter (fun r : Record => r.status)
        (fun s => decide (300 ≤ s ∧ s < 400)) (statusCols recs) hnd
        (botGroup recs k) hcomp
    · exact sum_countP_filter (fun r : Record => r.status)
        (fun s => decide (400 ≤ s ∧ s < 500)) (statusCols recs) hnd
        (botGroup recs k) hcomp
    · exact sum_countP_filter (fun r : Record => r.status)
        (fun s => decide (500 ≤ s ∧ s < 600)) (statusCols recs) hnd
        (botGroup recs k) hcomp
  · decide

/-- Witness for C8: the general range-column description instantiated at
the concrete example row. -/
theorem claim_C8_witness :
    (⟨"googlebot", [(404, 1), (600, 1)], 0, 0, 1, 0⟩ : StatusRow)
      ∈ status_code_analysis c8recs
    ∧ (⟨"googlebot", [(404, 1), (600, 1)], 0, 0, 1, 0⟩ : StatusRow).c4
        = (botGroup c8recs "googlebot").countP
            (fun r => decide (400 ≤ r.status ∧ r.status < 500)) :=
  ⟨by decide, (claim_C8.1 c8recs _ (by decide)).2.2.1⟩

/-! ## Claim C9 -/

/-- Claim C9: the `total_requests` column of `bot_distribution` sums to the
size of the bot subset, for every record collection satisfying the parser's
invariant that a bot record carries a bot type. -/
theorem claim_C9 (recs : List Record)
    (hwf : ∀ r ∈ recs, r.is_bot = true → r.bot_type.isSome) :
    ((bot_distribution recs).map (fun row => row.total_requests)).sum
      = (botSubset recs).length := by
  have hperm := (perm_sortDesc (fun r : BotRow => r.total_requests)
      ((botTypeKeys recs).map (mkBotRow recs))).map
      (fun row : BotRow => row.total_requests)
  unfold bot_distribution
  rw [hperm.sum_eq, List.map_map]
  have hfun : ((fun row : BotRow => row.total_requests) ∘ mkBotRow recs)
      = fun k => (botSubset recs).countP (fun r => r.bot_type == some k) := by
    funext k
    simp only [Function.comp_apply, mkBotRow, botGroup,
      List.countP_eq_length_filter]
  rw [hfun]
  have hkey : (botTypeKeys recs).map
      (fun k => (botSubset recs).countP (fun r => r.bot_type == some k))
      = ((botTypeKeys recs).map some).map
          (fun c => (botSubset recs).countP (fun r => r.bot_type == c)) := by
    rw [List.map_map]
    rfl
  rw [hkey]
  have hcnt : (fun c : Option String =>
        (botSubset recs).countP (fun r => r.bot_type == c))
      = (fun c : Option String => (botSubset recs).countP
          (fun r => @BEq.beq _ instBEqOfDecidableEq r.bot_type c)) := by
    funext c
    apply List.countP_congr
    intro r _
    by_cases h : r.bot_type = c
    · subst h
      simp
    · simp [h]
  rw [hcnt]
  refine sum_countP_all (fun r : Record => r.bot_type)
    ((botTypeKeys recs).map some)
    ((nodup_sKeys strLt strLt_strictTotal _).map (Option.some_injective _))
    (botSubset recs) ?_
  · intro r hr
    have hb : r.is_bot = true := by
      have := (List.mem_filter.mp hr).2
      simpa using this
    have hsome := hwf r (List.mem_filter.mp hr).1 hb
    rcases ho : r.bot_type with _ | k
    · rw [ho] at hsome
      simp at hsome
    · have hgoal : r.bot_type ∈ (botTypeKeys recs).map some := by
        rw [ho]
        refine List.mem_map.mpr ⟨k, ?_, rfl⟩
        refine (mem_sKeys strLt _ _).mpr ?_
        exact List.mem_filterMap.mpr ⟨r, hr, ho⟩
      exact hgoal

/-- A collection fulfilling the invariant, for the C9 witness. -/
def c9recs : List Record :=
  [mkRec "/a" 200 (some "googlebot"), mkRec "/b" 404 (some "bingbot"),
   mkRec "/c" 200 none]

/-- Witness for C9: the sum identity at a concrete collection. -/
theorem claim_C9_witness :
    ((bot_distribution c9recs).map (fun row => row.total_requests)).sum
      = (botSubset c9recs).length :=
  claim_C9 c9recs (by decide)
